import Mathlib

/-!
Verification of the steep-parallax fragment shader (`psSteepParallax.glsl`).

The shader is embedded shallowly: GLSL floats become exact rationals (ℚ) for
the ray-marching, shadow and compositing code, and reals (ℝ) where the source
uses `normalize`, `cos`/`sin` (the normal blend and the ambient-occlusion
block).  Texture samplers become arbitrary functions from UV coordinates to
values; loops become structural recursion on fuel or folds over the literal
index ranges of the source.
-/

namespace Steep

/-- GLSL `vec2` over exact rationals. -/
structure Vec2 where
  x : ℚ
  y : ℚ
deriving DecidableEq, Repr

instance : Add Vec2 := ⟨fun a b => ⟨a.x + b.x, a.y + b.y⟩⟩

/-- GLSL `vec3` over exact rationals. -/
structure Vec3 where
  x : ℚ
  y : ℚ
  z : ℚ
deriving DecidableEq, Repr

/-- GLSL `abs(x)` on floats, as an executable definition. -/
def glslAbs (q : ℚ) : ℚ := if q < 0 then -q else q

/-- GLSL `clamp(x, lo, hi)`. -/
def clamp (x lo hi : ℚ) : ℚ := min (max x lo) hi

/-- GLSL builtin `mix(x, y, a) = x*(1-a) + y*a` on scalars. -/
def glslMix (x y a : ℚ) : ℚ := x * (1 - a) + y * a

/-- The shader's own helper `lerp(a, b, t) = a + t*(b - a)`. -/
def lerp (a b t : ℚ) : ℚ := a + t * (b - a)

/-- Componentwise `mix` on `vec2`. -/
def Vec2.mix (p q : Vec2) (t : ℚ) : Vec2 :=
  ⟨glslMix p.x q.x t, glslMix p.y q.y t⟩

/-- Shader constant `shadowMin = 0.1`: darkest self-shadow. -/
def shadowMin : ℚ := 1/10

/-- Shader constant `aoMin = 0.08` (rational copy used by range statements). -/
def aoMinQ : ℚ := 8/100

/-- Shader constant `diffuseCoeff = 0.7`. -/
def diffuseCoeff : ℚ := 7/10

/-- Shader constant `baseSpecularCoeff = 0.6`. -/
def baseSpecularCoeff : ℚ := 6/10

/-!
## Height-field ray tracer (`parallaxTrace`)

The linear-search `while` loop carries five mutable locals:
`curUV`, `heightRem`, `curSample`, `prevUV`, `prevSample`.  We bundle them in a
state record and run the loop by structural recursion on a fuel argument; the
termination development below (claim C9) shows 73 units of fuel always exceed
the true iteration count, so the fuelled loop coincides with the source loop.
`prevUV` is declared in the source without an initializer, so the embedding
takes its initial value as an explicit parameter.
-/

/-- The mutable locals of the `parallaxTrace` linear-search loop. -/
structure TraceState where
  curUV : Vec2
  heightRem : ℚ
  curSample : ℚ
  prevUV : Vec2
  prevSample : ℚ
deriving DecidableEq, Repr

/-- Loop guard of the linear search: `heightRem > 0.0 && curSample < heightRem`. -/
def traceGuard (s : TraceState) : Prop :=
  0 < s.heightRem ∧ s.curSample < s.heightRem

instance (s : TraceState) : Decidable (traceGuard s) := by
  unfold traceGuard; infer_instance

/-- One body execution of the linear-search loop:
`heightRem -= deltaH; prevUV = curUV; prevSample = curSample;
 curUV += deltaUV; curSample = texture(heightMap, curUV).r`. -/
def traceStep (H : Vec2 → ℚ) (deltaUV : Vec2) (deltaH : ℚ) (s : TraceState) :
    TraceState :=
  ⟨s.curUV + deltaUV, s.heightRem - deltaH, H (s.curUV + deltaUV),
   s.curUV, s.curSample⟩

/-- The fuelled linear-search loop of `parallaxTrace`. -/
def traceLoop (H : Vec2 → ℚ) (deltaUV : Vec2) (deltaH : ℚ) :
    Nat → TraceState → TraceState
  | 0, s => s
  | n + 1, s =>
    if traceGuard s then traceLoop H deltaUV deltaH n (traceStep H deltaUV deltaH s)
    else s

/-- Step count `mix(72.0, 36.0, t)` as a function of `abs(viewDir.z)`. -/
def stepMix (t : ℚ) : ℚ := glslMix 72 36 t

/-- `numSteps = mix(72.0, 36.0, abs(viewDir.z))`. -/
def numStepsOf (viewDir : Vec3) : ℚ := stepMix (glslAbs viewDir.z)

/-- Refinement weight `t = clamp(beforeDepth / (beforeDepth + afterDepth), 0, 1)`. -/
def interpWeight (beforeDepth afterDepth : ℚ) : ℚ :=
  clamp (beforeDepth / (beforeDepth + afterDepth)) 0 1

/-- Per-step UV delta
`-viewDir.yx * bumpScale * steepScale / (abs(viewDir.z) * numSteps)`
(`.yx` swaps the components, `steepScale = 1.0`). -/
def traceDeltaUV (viewDir : Vec3) (bumpScale : ℚ) : Vec2 :=
  ⟨-viewDir.y * bumpScale * 1 / (glslAbs viewDir.z * numStepsOf viewDir),
   -viewDir.x * bumpScale * 1 / (glslAbs viewDir.z * numStepsOf viewDir)⟩

/-- Initial loop state: `curUV = uv; heightRem = 1.0;
`curSample = texture(heightMap, uv).r; prevSample = heightRem` and `prevUV`
left at its (undefined in GLSL) initial value `prevUVInit`. -/
def traceInit (H : Vec2 → ℚ) (uv : Vec2) (prevUVInit : Vec2) : TraceState :=
  ⟨uv, 1, H uv, prevUVInit, 1⟩

/-- `parallaxTrace(heightMap, uv, viewDir, bumpScale)`: fuelled linear search
followed by the interpolation refinement `mix(prevUV, curUV, t)`. -/
def parallaxTrace (H : Vec2 → ℚ) (uv : Vec2) (viewDir : Vec3) (bumpScale : ℚ)
    (prevUVInit : Vec2) : Vec2 :=
  let numSteps := numStepsOf viewDir
  let deltaUV := traceDeltaUV viewDir bumpScale
  let deltaH := 1 / numSteps
  let s := traceLoop H deltaUV deltaH 73 (traceInit H uv prevUVInit)
  let afterDepth := s.curSample - s.heightRem
  let beforeDepth := s.prevSample - (s.heightRem + deltaH)
  Vec2.mix s.prevUV s.curUV (interpWeight beforeDepth afterDepth)

/-!
## Self-shadow block (step 12 of `main`)

`shadow` stays `1.0` unless `selfShadowTest > 0.0 && NdotL > 0.0`.  Inside the
branch a 7×7 PCF kernel (`dx, dy ∈ [-3, 3]`) marches the height field along the
light; the counter `pcfSamples` starts at `4` and is incremented once per tap.
-/

/-- GLSL `int(x)` conversion: truncation toward zero (`Int.tdiv` is exactly
T-division, and a rational's denominator is positive). -/
def glslInt (q : ℚ) : Int := q.num.tdiv (q.den : Int)

/-- The inner shadow march
`for (i = 0; i < numShadowSteps && shadowHeight < 1.0; ++i)` with early exit
when `texture(heightMap, shadowUV).r > shadowHeight`; fuel is the step count. -/
def shadowMarch (H : Vec2 → ℚ) (dUV : Vec2) (dH : ℚ) :
    Nat → Vec2 → ℚ → Bool
  | 0, _, _ => false
  | n + 1, shadowUV, shadowHeight =>
    if shadowHeight < 1 then
      if H shadowUV > shadowHeight then true
      else shadowMarch H dUV dH n (shadowUV + dUV) (shadowHeight + dH)
    else false

/-- The 7×7 PCF tap offsets, outer loop `dx`, inner loop `dy`, both `-3..3`. -/
def pcfOffsets : List (Int × Int) :=
  ((List.range 7).map (fun i => (i : Int) - 3)).flatMap (fun dx =>
    ((List.range 7).map (fun i => (i : Int) - 3)).map (fun dy => (dx, dy)))

/-- Accumulation across the PCF kernel: the pair is
`(shadowSum, pcfSamples)` with initial value `(0.0, 4)`; each tap adds
`inShadow ? shadowMin : 1.0` to the sum and `1` to the counter. -/
def pcfAccum (H : Vec2 → ℚ) (finalUV : Vec2) (shadowDeltaUV : Vec2)
    (shadowDeltaH : ℚ) (numShadowSteps : Int) : ℚ × Int :=
  pcfOffsets.foldl (fun acc p =>
    let pcfOffset : Vec2 := ⟨(p.1 : ℚ) * (15/10000), (p.2 : ℚ) * (15/10000)⟩
    let shadowUV := finalUV + pcfOffset
    let shadowHeight := H finalUV + shadowDeltaH * (1/10)
    let inShadow := shadowMarch H shadowDeltaUV shadowDeltaH
      numShadowSteps.toNat shadowUV shadowHeight
    (acc.1 + (if inShadow then shadowMin else 1), acc.2 + 1)) (0, 4)

/-- The whole self-shadow block: the value the `shadow` local holds when the
composite is evaluated.  `tanLightN` is the normalized, x-flipped light
direction; `NdotL` the Lambertian factor computed in step 8. -/
def shadowFactor (H : Vec2 → ℚ) (finalUV : Vec2) (tanLightN : Vec3)
    (bumpScale selfShadowTest NdotL : ℚ) : ℚ :=
  if 0 < selfShadowTest ∧ 0 < NdotL then
    let numShadowSteps : Int := glslInt (lerp 48 12 (glslAbs tanLightN.z))
    let shadowDeltaH : ℚ := 1 / (numShadowSteps : ℚ)
    let shadowDeltaUV : Vec2 :=
      ⟨tanLightN.y * bumpScale * 1 / (glslAbs tanLightN.z * (numShadowSteps : ℚ)),
       tanLightN.x * bumpScale * 1 / (glslAbs tanLightN.z * (numShadowSteps : ℚ))⟩
    let res := pcfAccum H finalUV shadowDeltaUV shadowDeltaH numShadowSteps
    res.1 / (res.2 : ℚ)
  else 1

/-!
## Final composite (step 13 of `main`)

`color = albedo * (ambientBase * ao + lightColor * diffuseCoeff * NdotL * shadow)
       + lightColor * specular * shadow`.
-/

/-- Componentwise product of two `vec3` (GLSL `*` on vectors). -/
instance : Mul Vec3 := ⟨fun a b => ⟨a.x * b.x, a.y * b.y, a.z * b.z⟩⟩

instance : Add Vec3 := ⟨fun a b => ⟨a.x + b.x, a.y + b.y, a.z + b.z⟩⟩

/-- `vec3 * float` scaling. -/
def Vec3.scale (v : Vec3) (s : ℚ) : Vec3 := ⟨v.x * s, v.y * s, v.z * s⟩

/-- The final composite of step 13, with the already-computed scalar factors
as inputs. -/
def compositeColor (albedo ambientBase lightColor : Vec3)
    (ao NdotL shadow specular : ℚ) : Vec3 :=
  albedo * (ambientBase.scale ao
            + ((lightColor.scale diffuseCoeff).scale NdotL).scale shadow)
  + (lightColor.scale specular).scale shadow

/-- Modelled from the spec's words, for comparison with `compositeColor`
(claim C2): the AO factor multiplies the Lambertian diffuse term only and the
constant ambient term is left unoccluded; shadow multiplies diffuse and
specular as in the code. -/
def compositeColorSpecC2 (albedo ambientBase lightColor : Vec3)
    (ao NdotL shadow specular : ℚ) : Vec3 :=
  albedo * (ambientBase
            + (((lightColor.scale diffuseCoeff).scale NdotL).scale ao).scale shadow)
  + (lightColor.scale specular).scale shadow

/-- Height field of the C1 failing input: `0` at the origin, `1` elsewhere. -/
def heightFieldC1 : Vec2 → ℚ := fun p => if p = ⟨0, 0⟩ then 0 else 1

/-!
## Real-valued fragment: normal blend and ambient occlusion

`normalize`, `cos` and `sin` force these parts of the shader into ℝ.
-/

/-- GLSL `vec2` over the reals (AO sampling positions). -/
structure Vec2R where
  x : ℝ
  y : ℝ

/-- GLSL `vec3` over the reals (normals). -/
structure Vec3R where
  x : ℝ
  y : ℝ
  z : ℝ

instance : Add Vec3R := ⟨fun a b => ⟨a.x + b.x, a.y + b.y, a.z + b.z⟩⟩

instance : Zero Vec3R := ⟨⟨0, 0, 0⟩⟩

noncomputable section RealShader

/-- GLSL `dot` on `vec3`. -/
def dot3 (a b : Vec3R) : ℝ := a.x * b.x + a.y * b.y + a.z * b.z

/-- Squared length `dot(v, v)`. -/
def nsq (v : Vec3R) : ℝ := dot3 v v

/-- GLSL `normalize(v) = v / length(v)` with `length(v) = sqrt(dot(v, v))`. -/
def normalize3 (v : Vec3R) : Vec3R :=
  ⟨v.x / Real.sqrt (nsq v), v.y / Real.sqrt (nsq v), v.z / Real.sqrt (nsq v)⟩

/-- GLSL builtin `mix` on reals. -/
def glslMixR (x y a : ℝ) : ℝ := x * (1 - a) + y * a

/-- Componentwise `mix` on `vec3` (the 50/50 normal blend in step 6). -/
def mix3 (p q : Vec3R) (t : ℝ) : Vec3R :=
  ⟨glslMixR p.x q.x t, glslMixR p.y q.y t, glslMixR p.z q.z t⟩

/-- The shader's `lerp` over ℝ. -/
def lerpR (a b t : ℝ) : ℝ := a + t * (b - a)

/-- The shader's `saturate` over ℝ: `clamp(x, 0.0, 1.0)`. -/
def saturateR (x : ℝ) : ℝ := min (max x 0) 1

/-- Shader constant `aoMin = 0.08` over ℝ. -/
def aoMin : ℝ := 8/100

/-- Shader constant `AO_RADIUS = 0.012`. -/
def AO_RADIUS : ℝ := 12/1000

/-- Decoding a normal-map texel: `normalize(texel.rgb * 2.0 - 1.0)`. -/
def decodeNormal (c : Vec3R) : Vec3R :=
  normalize3 ⟨c.x * 2 - 1, c.y * 2 - 1, c.z * 2 - 1⟩

/-- One AO loop iteration's contribution `rawAO` for sample index `i`:
circle direction from `ang = 6.2831853 * i / AO_SAMPLES`, raw occlusion
`saturate(hVal - neighborH + 0.03)`, modulated by
`0.4 + 0.6 * max(dot(N, nS), 0.0)`. -/
def aoSample (H : Vec2R → ℝ) (NM : Vec2R → Vec3R) (finalUV : Vec2R)
    (hVal : ℝ) (N : Vec3R) (i : Nat) : ℝ :=
  let ang : ℝ := 6.2831853 * (i : ℝ) / 8
  let dir : Vec2R := ⟨Real.cos ang, Real.sin ang⟩
  let uvS : Vec2R := ⟨finalUV.x + dir.x * AO_RADIUS, finalUV.y + dir.y * AO_RADIUS⟩
  let neighborH := H uvS
  let rawAO := saturateR (hVal - neighborH + 3/100)
  let nS := decodeNormal (NM uvS)
  rawAO * (4/10 + 6/10 * max (dot3 N nS) 0)

/-- The whole AO block (step 11 of `main`): the average of the eight samples,
flattened toward `1.0` by `abs(N.z)`, then remapped into `[aoMin, 1]`. -/
def aoFactor (H : Vec2R → ℝ) (NM : Vec2R → Vec3R) (finalUV : Vec2R)
    (hVal : ℝ) (N : Vec3R) : ℝ :=
  let sumAO := (List.range 8).foldl
    (fun acc i => acc + aoSample H NM finalUV hVal N i) 0
  let ao := sumAO / 8
  let flatten := |N.z|
  let ao' := lerpR ao 1 flatten
  lerpR aoMin 1 ao'

end RealShader

end Steep
namespace Steep

lemma traceLoop_of_not_guard (H : Vec2 → ℚ) (d : Vec2) (dh : ℚ) (n : Nat)
    (s : TraceState) (h : ¬ traceGuard s) : traceLoop H d dh n s = s := by
  cases n <;> simp [traceLoop, h]

lemma traceLoop_stable (H : Vec2 → ℚ) (d : Vec2) (dh : ℚ) (_hdh : 0 < dh) :
    ∀ (n : Nat) (s : TraceState), s.heightRem ≤ (n : ℚ) * dh →
      ∀ m, traceLoop H d dh (n + m) s = traceLoop H d dh n s := by
  intro n
  induction n with
  | zero =>
    intro s hs m
    have hng : ¬ traceGuard s := by
      rintro ⟨h1, _⟩
      simp at hs
      linarith
    rw [show (0 : Nat) + m = m from by omega,
        traceLoop_of_not_guard H d dh m s hng, traceLoop_of_not_guard H d dh 0 s hng]
  | succ n ih =>
    intro s hs m
    by_cases hg : traceGuard s
    · have e1 : n + 1 + m = (n + m) + 1 := by omega
      rw [e1]
      rw [show traceLoop H d dh ((n + m) + 1) s
            = traceLoop H d dh (n + m) (traceStep H d dh s) by simp [traceLoop, hg]]
      rw [show traceLoop H d dh (n + 1) s
            = traceLoop H d dh n (traceStep H d dh s) by simp [traceLoop, hg]]
      apply ih
      have : (traceStep H d dh s).heightRem = s.heightRem - dh := rfl
      rw [this]
      push_cast at hs ⊢
      linarith
    · rw [traceLoop_of_not_guard H d dh (n + 1 + m) s hg,
          traceLoop_of_not_guard H d dh (n + 1) s hg]

lemma glslAbs_eq_abs (q : ℚ) : glslAbs q = |q| := by
  unfold glslAbs
  split
  · rw [abs_of_neg (by assumption)]
  · rw [abs_of_nonneg (by linarith [not_lt.mp (by assumption)])]

lemma numStepsOf_bounds (vd : Vec3) (h : |vd.z| ≤ 1) :
    36 ≤ numStepsOf vd ∧ numStepsOf vd ≤ 72 := by
  unfold numStepsOf stepMix glslMix
  rw [glslAbs_eq_abs]
  have h0 : 0 ≤ |vd.z| := abs_nonneg _
  constructor <;> nlinarith

end Steep
namespace Steep

lemma Vec2.add_zero_right (p : Vec2) : p + (⟨0, 0⟩ : Vec2) = p := by
  cases p
  show Vec2.mk _ _ = _
  simp

lemma Vec2.mix_self (p : Vec2) (t : ℚ) : Vec2.mix p p t = p := by
  cases p
  unfold Vec2.mix glslMix
  simp
  constructor <;> ring

lemma Vec2.mix_one (p q : Vec2) : Vec2.mix p q 1 = q := by
  cases q
  unfold Vec2.mix glslMix
  simp

lemma traceLoop_zero_delta (H : Vec2 → ℚ) (dh : ℚ) (u : Vec2) :
    ∀ (n : Nat) (s : TraceState), s.curUV = u → s.prevUV = u →
      (traceLoop H ⟨0, 0⟩ dh n s).curUV = u ∧ (traceLoop H ⟨0, 0⟩ dh n s).prevUV = u := by
  intro n
  induction n with
  | zero => intro s h1 h2; exact ⟨h1, h2⟩
  | succ n ih =>
    intro s h1 h2
    by_cases hg : traceGuard s
    · rw [show traceLoop H ⟨0, 0⟩ dh (n + 1) s
            = traceLoop H ⟨0, 0⟩ dh n (traceStep H ⟨0, 0⟩ dh s) by simp [traceLoop, hg]]
      apply ih
      · show s.curUV + ⟨0, 0⟩ = u
        rw [Vec2.add_zero_right, h1]
      · show s.curUV = u
        exact h1
    · rw [traceLoop_of_not_guard H ⟨0, 0⟩ dh (n + 1) s hg]
      exact ⟨h1, h2⟩

lemma traceDeltaUV_zero_bump (vd : Vec3) : traceDeltaUV vd 0 = ⟨0, 0⟩ := by
  unfold traceDeltaUV
  simp

/-- C4: with `bumpScale = 0` the parallax ray tracer returns the input UV
unchanged, for every height field with values in `[0, 1]`, every starting UV
and every unit view direction with nonzero z-component (and any initial
value of the uninitialized `prevUV`). -/
theorem parallaxTrace_zero_bumpScale (H : Vec2 → ℚ) (uv : Vec2) (vd : Vec3)
    (prevUVInit : Vec2) (hH : ∀ p, 0 ≤ H p ∧ H p ≤ 1)
    (hunit : vd.x ^ 2 + vd.y ^ 2 + vd.z ^ 2 = 1) (_hz : vd.z ≠ 0) :
    parallaxTrace H uv vd 0 prevUVInit = uv := by
  have habs : |vd.z| ≤ 1 := by
    rw [abs_le]
    constructor <;> nlinarith [sq_nonneg vd.x, sq_nonneg vd.y]
  have hns := numStepsOf_bounds vd habs
  have hdh : 0 < 1 / numStepsOf vd := by
    apply div_pos one_pos
    linarith [hns.1]
  simp only [parallaxTrace, traceDeltaUV_zero_bump]
  by_cases hg : traceGuard (traceInit H uv prevUVInit)
  · -- at least one iteration: afterwards both prevUV and curUV equal uv
    rw [show traceLoop H ⟨0, 0⟩ (1 / numStepsOf vd) 73 (traceInit H uv prevUVInit)
          = traceLoop H ⟨0, 0⟩ (1 / numStepsOf vd) 72
              (traceStep H ⟨0, 0⟩ (1 / numStepsOf vd) (traceInit H uv prevUVInit))
        by simp [traceLoop, hg]]
    have hinv := traceLoop_zero_delta H (1 / numStepsOf vd) uv 72
      (traceStep H ⟨0, 0⟩ (1 / numStepsOf vd) (traceInit H uv prevUVInit))
      (by show uv + ⟨0, 0⟩ = uv; exact Vec2.add_zero_right uv)
      (by show uv = uv; rfl)
    rw [hinv.1, hinv.2, Vec2.mix_self]
  · -- zero iterations: the guard fails only when `H uv = 1`, and then `t = 1`
    rw [traceLoop_of_not_guard H ⟨0, 0⟩ (1 / numStepsOf vd) 73 _ hg]
    have hs1 : H uv = 1 := by
      unfold traceGuard traceInit at hg
      push_neg at hg
      have := hg one_pos
      simp at this
      linarith [(hH uv).2]
    show Vec2.mix prevUVInit uv (interpWeight _ _) = uv
    have hafter : H uv - (1 : ℚ) = 0 := by rw [hs1]; ring
    have ht : interpWeight ((1 : ℚ) - (1 + 1 / numStepsOf vd)) (H uv - 1) = 1 := by
      rw [hs1]
      unfold interpWeight clamp
      rw [show (1 : ℚ) - (1 + 1 / numStepsOf vd) = -(1 / numStepsOf vd) by ring]
      rw [show -(1 / numStepsOf vd) + ((1 : ℚ) - 1) = -(1 / numStepsOf vd) by ring]
      rw [div_self (by linarith)]
      norm_num
    show Vec2.mix prevUVInit uv
        (interpWeight ((traceInit H uv prevUVInit).prevSample
            - ((traceInit H uv prevUVInit).heightRem + 1 / numStepsOf vd))
          ((traceInit H uv prevUVInit).curSample - (traceInit H uv prevUVInit).heightRem)) = uv
    have e1 : (traceInit H uv prevUVInit).prevSample = 1 := rfl
    have e2 : (traceInit H uv prevUVInit).heightRem = 1 := rfl
    have e3 : (traceInit H uv prevUVInit).curSample = H uv := rfl
    rw [e1, e2, e3, ht, Vec2.mix_one]

end Steep
namespace Steep

/-- C9: for any inputs with a unit view direction of nonzero z, the step count
lies in `[36, 72]`, the per-iteration decrement `deltaH = 1/numSteps` is
positive, and 73 units of fuel already saturate the linear-search loop: more
fuel never changes the state, so `parallaxTrace` is total. -/
theorem parallaxTrace_loop_terminates (H : Vec2 → ℚ) (uv : Vec2) (vd : Vec3)
    (bumpScale : ℚ) (prevUVInit : Vec2)
    (hunit : vd.x ^ 2 + vd.y ^ 2 + vd.z ^ 2 = 1) (_hz : vd.z ≠ 0) :
    (36 ≤ numStepsOf vd ∧ numStepsOf vd ≤ 72) ∧ 0 < 1 / numStepsOf vd ∧
      ∀ k, traceLoop H (traceDeltaUV vd bumpScale) (1 / numStepsOf vd) (73 + k)
              (traceInit H uv prevUVInit)
          = traceLoop H (traceDeltaUV vd bumpScale) (1 / numStepsOf vd) 73
              (traceInit H uv prevUVInit) := by
  have habs : |vd.z| ≤ 1 := by
    rw [abs_le]
    constructor <;> nlinarith [sq_nonneg vd.x, sq_nonneg vd.y]
  have hns := numStepsOf_bounds vd habs
  have hdh : 0 < 1 / numStepsOf vd := by
    apply div_pos one_pos
    linarith [hns.1]
  refine ⟨hns, hdh, fun k => ?_⟩
  apply traceLoop_stable H (traceDeltaUV vd bumpScale) (1 / numStepsOf vd) hdh
  show (1 : ℚ) ≤ (73 : ℚ) * (1 / numStepsOf vd)
  rw [mul_one_div]
  rw [le_div_iff₀ (by linarith [hns.1])]
  linarith [hns.2]

/-- C10: when the height field reads `1.0` at the starting UV the linear
search performs zero iterations (73 units of fuel leave the initial state
untouched) and `parallaxTrace` still returns the input UV, whatever value the
never-assigned `prevUV` variable holds. -/
theorem parallaxTrace_flat_top (H : Vec2 → ℚ) (uv : Vec2) (vd : Vec3)
    (bumpScale : ℚ) (h1 : H uv = 1) (habs : |vd.z| ≤ 1) :
    ∀ prevUVInit,
      traceLoop H (traceDeltaUV vd bumpScale) (1 / numStepsOf vd) 73
          (traceInit H uv prevUVInit)
        = traceInit H uv prevUVInit
      ∧ parallaxTrace H uv vd bumpScale prevUVInit = uv := by
  intro prevUVInit
  have hns := numStepsOf_bounds vd habs
  have hg : ¬ traceGuard (traceInit H uv prevUVInit) := by
    rintro ⟨_, hlt⟩
    unfold traceInit at hlt
    simp at hlt
    rw [h1] at hlt
    exact absurd hlt (lt_irrefl 1)
  refine ⟨traceLoop_of_not_guard _ _ _ _ _ hg, ?_⟩
  simp only [parallaxTrace]
  rw [traceLoop_of_not_guard _ _ _ _ _ hg]
  have ht : interpWeight ((traceInit H uv prevUVInit).prevSample
        - ((traceInit H uv prevUVInit).heightRem + 1 / numStepsOf vd))
      ((traceInit H uv prevUVInit).curSample - (traceInit H uv prevUVInit).heightRem)
      = 1 := by
    show interpWeight ((1 : ℚ) - (1 + 1 / numStepsOf vd)) (H uv - 1) = 1
    rw [h1]
    unfold interpWeight clamp
    rw [show (1 : ℚ) - (1 + 1 / numStepsOf vd) = -(1 / numStepsOf vd) by ring]
    rw [show -(1 / numStepsOf vd) + ((1 : ℚ) - 1) = -(1 / numStepsOf vd) by ring]
    rw [div_self (by
      have : 0 < 1 / numStepsOf vd := div_pos one_pos (by linarith [hns.1])
      linarith)]
    norm_num
  rw [ht, Vec2.mix_one]
  rfl

end Steep
namespace Steep

lemma Vec3.add_x (a b : Vec3) : (a + b).x = a.x + b.x := rfl

lemma Vec3.add_y (a b : Vec3) : (a + b).y = a.y + b.y := rfl

lemma Vec3.add_z (a b : Vec3) : (a + b).z = a.z + b.z := rfl

lemma Vec3.mul_x (a b : Vec3) : (a * b).x = a.x * b.x := rfl

lemma Vec3.mul_y (a b : Vec3) : (a * b).y = a.y * b.y := rfl

lemma Vec3.mul_z (a b : Vec3) : (a * b).z = a.z * b.z := rfl

lemma Vec3.ext_comp {a b : Vec3} (hx : a.x = b.x) (hy : a.y = b.y)
    (hz : a.z = b.z) : a = b := by
  cases a
  cases b
  simp_all

/-- C5: the refinement interpolation weight
`t = clamp(beforeDepth / (beforeDepth + afterDepth), 0, 1)` is a well-defined
rational in `[0, 1]` for all overshoot values (division is total in the exact
embedding, and the zero-denominator case is clamped into range), and the UV
returned by `parallaxTrace` is exactly the `mix` of the last two loop UVs by
this weight. -/
theorem interpWeight_mem_unit (beforeDepth afterDepth : ℚ) :
    (0 ≤ interpWeight beforeDepth afterDepth
      ∧ interpWeight beforeDepth afterDepth ≤ 1)
    ∧ ∀ (H : Vec2 → ℚ) (uv : Vec2) (vd : Vec3) (bumpScale : ℚ) (prevUVInit : Vec2),
        parallaxTrace H uv vd bumpScale prevUVInit
          = (traceLoop H (traceDeltaUV vd bumpScale) (1 / numStepsOf vd) 73
              (traceInit H uv prevUVInit)).prevUV.mix
            (traceLoop H (traceDeltaUV vd bumpScale) (1 / numStepsOf vd) 73
              (traceInit H uv prevUVInit)).curUV
            (interpWeight
              ((traceLoop H (traceDeltaUV vd bumpScale) (1 / numStepsOf vd) 73
                  (traceInit H uv prevUVInit)).prevSample
                - ((traceLoop H (traceDeltaUV vd bumpScale) (1 / numStepsOf vd) 73
                    (traceInit H uv prevUVInit)).heightRem + 1 / numStepsOf vd))
              ((traceLoop H (traceDeltaUV vd bumpScale) (1 / numStepsOf vd) 73
                  (traceInit H uv prevUVInit)).curSample
                - (traceLoop H (traceDeltaUV vd bumpScale) (1 / numStepsOf vd) 73
                    (traceInit H uv prevUVInit)).heightRem)) := by
  refine ⟨⟨?_, ?_⟩, fun H uv vd bumpScale prevUVInit => rfl⟩
  · exact le_min (le_max_right _ _) zero_le_one
  · exact min_le_right _ _

/-- C8: the interpolated step count `mix(72.0, 36.0, abs(viewDir.z))` is 36 at
the face-on direction `(0,0,1)`, strictly below its value at any near-grazing
direction `(1,0,z)` with `|z| < 1`; equivalently `stepMix` is strictly
decreasing on `[0, 1]`. -/
theorem numSteps_face_on_lt_grazing :
    (∀ z : ℚ, |z| < 1 →
        numStepsOf ⟨0, 0, 1⟩ < numStepsOf ⟨1, 0, z⟩)
    ∧ ∀ a b : ℚ, 0 ≤ a → a < b → b ≤ 1 → stepMix b < stepMix a := by
  constructor
  · intro z hzlt
    show stepMix (glslAbs (1 : ℚ)) < stepMix (glslAbs z)
    rw [glslAbs_eq_abs, glslAbs_eq_abs]
    unfold stepMix glslMix
    rw [abs_one]
    have h0 : 0 ≤ |z| := abs_nonneg _
    nlinarith
  · intro a b _ha hab _hb
    unfold stepMix glslMix
    nlinarith

/-- C3: when self-shadowing is disabled (`selfShadowTest ≤ 0`) or the surface
does not face the light (`NdotL ≤ 0`), the self-shadow block leaves the shadow
factor at exactly `1.0`, regardless of every other input. -/
theorem shadowFactor_disabled_eq_one (H : Vec2 → ℚ) (finalUV : Vec2)
    (tanLightN : Vec3) (bumpScale selfShadowTest NdotL : ℚ)
    (h : selfShadowTest ≤ 0 ∨ NdotL ≤ 0) :
    shadowFactor H finalUV tanLightN bumpScale selfShadowTest NdotL = 1 := by
  unfold shadowFactor
  rw [if_neg]
  rintro ⟨h1, h2⟩
  rcases h with h | h <;> linarith

set_option maxRecDepth 100000 in
/-- C1 is violated by the code: the PCF tap counter starts at 4 and is then
incremented once per tap of the 7×7 kernel, so the 49 tap results are divided
by 53.  On a height field that occludes every tap the shadow factor is
`49 * shadowMin / 53 = 49/530 < shadowMin`, below the documented floor. -/
theorem shadowFactor_below_shadowMin :
    shadowFactor heightFieldC1 ⟨0, 0⟩ ⟨6/10, 0, 8/10⟩ 1 1 1 = 49/530
    ∧ shadowFactor heightFieldC1 ⟨0, 0⟩ ⟨6/10, 0, 8/10⟩ 1 1 1 < shadowMin := by
  with_unfolding_all decide

set_option maxRecDepth 100000 in
/-- C2 as stated is false on the code: at `ao = 1/2` with no diffuse or
specular contribution (`NdotL = 0`, `specular = 0`) the code's composite
halves the ambient term while the spec's reading (AO on the diffuse term
only, ambient unoccluded) leaves it unchanged. -/
theorem compositeColor_ne_specC2 :
    compositeColor ⟨1, 1, 1⟩ ⟨1, 1, 1⟩ ⟨1, 1, 1⟩ (1/2) 0 1 0
      ≠ compositeColorSpecC2 ⟨1, 1, 1⟩ ⟨1, 1, 1⟩ ⟨1, 1, 1⟩ (1/2) 0 1 0 := by
  with_unfolding_all decide

/-- C2, amended: in the final composite the Lambertian diffuse term and the
specular term are each multiplied by the shadow factor, and the AO factor
multiplies only the constant ambient term — not the diffuse-side terms. -/
theorem compositeColor_structure (albedo ambientBase lightColor : Vec3)
    (ao NdotL shadow specular : ℚ) :
    compositeColor albedo ambientBase lightColor ao NdotL shadow specular
      = (albedo * ambientBase).scale ao
        + (albedo * lightColor).scale (diffuseCoeff * NdotL * shadow)
        + lightColor.scale (specular * shadow) := by
  apply Vec3.ext_comp <;>
    simp only [compositeColor, Vec3.scale, Vec3.add_x, Vec3.add_y, Vec3.add_z,
      Vec3.mul_x, Vec3.mul_y, Vec3.mul_z] <;> ring

end Steep
namespace Steep

lemma Vec3R.radd_x (a b : Vec3R) : (a + b).x = a.x + b.x := rfl

lemma Vec3R.radd_y (a b : Vec3R) : (a + b).y = a.y + b.y := rfl

lemma Vec3R.radd_z (a b : Vec3R) : (a + b).z = a.z + b.z := rfl

lemma Vec3R.rext_comp {a b : Vec3R} (hx : a.x = b.x) (hy : a.y = b.y)
    (hz : a.z = b.z) : a = b := by
  cases a
  cases b
  simp_all

lemma nsq_nonneg (v : Vec3R) : 0 ≤ nsq v := by
  unfold nsq dot3
  nlinarith [mul_self_nonneg v.x, mul_self_nonneg v.y, mul_self_nonneg v.z]

lemma normalize3_scale (c : ℝ) (hc : 0 < c) (v : Vec3R) :
    normalize3 ⟨c * v.x, c * v.y, c * v.z⟩ = normalize3 v := by
  have hnsq : nsq ⟨c * v.x, c * v.y, c * v.z⟩ = c ^ 2 * nsq v := by
    simp only [nsq, dot3]
    ring
  have hs : Real.sqrt (c ^ 2 * nsq v) = c * Real.sqrt (nsq v) := by
    rw [Real.sqrt_mul (sq_nonneg c), Real.sqrt_sq hc.le]
  apply Vec3R.rext_comp <;>
    simp only [normalize3, hnsq, hs] <;>
    exact mul_div_mul_left _ _ (ne_of_gt hc)

/-- C6: blending the two unit normals with `mix(nM, nH, 0.5)` and
re-normalizing yields exactly `normalize(nM + nH)`: the 50/50 blend is
algebraically the normalized plain sum. -/
theorem blend_normal_eq_normalize_sum (nM nH : Vec3R) (_h : nM + nH ≠ 0) :
    normalize3 (mix3 nM nH (1/2)) = normalize3 (nM + nH) := by
  have e : mix3 nM nH (1/2)
      = ⟨(1/2) * (nM + nH).x, (1/2) * (nM + nH).y, (1/2) * (nM + nH).z⟩ := by
    apply Vec3R.rext_comp <;>
      simp only [mix3, glslMixR, Vec3R.radd_x, Vec3R.radd_y, Vec3R.radd_z] <;>
      ring
  rw [e, normalize3_scale (1/2) (by norm_num) (nM + nH)]

lemma nsq_normalize3_le_one (v : Vec3R) : nsq (normalize3 v) ≤ 1 := by
  by_cases h : nsq v = 0
  · have : normalize3 v = ⟨0, 0, 0⟩ := by
      apply Vec3R.rext_comp <;> simp [normalize3, h]
    rw [this]
    simp [nsq, dot3]
  · have hpos : 0 < nsq v := lt_of_le_of_ne (nsq_nonneg v) (Ne.symm h)
    have h2 : Real.sqrt (nsq v) * Real.sqrt (nsq v) = nsq v :=
      Real.mul_self_sqrt (nsq_nonneg v)
    have key : nsq (normalize3 v)
        = nsq v / (Real.sqrt (nsq v) * Real.sqrt (nsq v)) := by
      simp only [normalize3, nsq, dot3]
      ring
    rw [key, h2, div_self h]

lemma dot3_le_one {a b : Vec3R} (ha : nsq a ≤ 1) (hb : nsq b ≤ 1) :
    dot3 a b ≤ 1 := by
  have hcs : dot3 a b * dot3 a b ≤ nsq a * nsq b := by
    simp only [nsq, dot3]
    nlinarith [sq_nonneg (a.x * b.y - a.y * b.x), sq_nonneg (a.x * b.z - a.z * b.x),
      sq_nonneg (a.y * b.z - a.z * b.y)]
  nlinarith [nsq_nonneg a, nsq_nonneg b, sq_nonneg (dot3 a b - 1),
    sq_nonneg (dot3 a b + 1)]

lemma saturateR_mem (x : ℝ) : 0 ≤ saturateR x ∧ saturateR x ≤ 1 :=
  ⟨le_min (le_max_right _ _) zero_le_one, min_le_right _ _⟩

lemma aoSample_mem_unit (H : Vec2R → ℝ) (NM : Vec2R → Vec3R) (finalUV : Vec2R)
    (hVal : ℝ) (N : Vec3R) (i : Nat) (hN : nsq N ≤ 1) :
    0 ≤ aoSample H NM finalUV hVal N i ∧ aoSample H NM finalUV hVal N i ≤ 1 := by
  simp only [aoSample]
  have hsat := saturateR_mem (hVal - H ⟨finalUV.x + Real.cos (6.2831853 * (i : ℝ) / 8) * AO_RADIUS,
    finalUV.y + Real.sin (6.2831853 * (i : ℝ) / 8) * AO_RADIUS⟩ + 3/100)
  set uvS : Vec2R := ⟨finalUV.x + Real.cos (6.2831853 * (i : ℝ) / 8) * AO_RADIUS,
    finalUV.y + Real.sin (6.2831853 * (i : ℝ) / 8) * AO_RADIUS⟩ with huvS
  have hd : dot3 N (decodeNormal (NM uvS)) ≤ 1 :=
    dot3_le_one hN (by unfold decodeNormal; exact nsq_normalize3_le_one _)
  have hm0 : (0 : ℝ) ≤ max (dot3 N (decodeNormal (NM uvS))) 0 := le_max_right _ _
  have hm1 : max (dot3 N (decodeNormal (NM uvS))) 0 ≤ 1 := max_le hd zero_le_one
  constructor
  · apply mul_nonneg hsat.1
    nlinarith
  · apply mul_le_one₀ hsat.2 (by nlinarith) (by nlinarith)

lemma foldl_add_unit_bounds (f : Nat → ℝ) (hf : ∀ i, 0 ≤ f i ∧ f i ≤ 1) :
    ∀ (l : List Nat) (a : ℝ),
      a ≤ l.foldl (fun acc i => acc + f i) a
      ∧ l.foldl (fun acc i => acc + f i) a ≤ a + l.length := by
  intro l
  induction l with
  | nil => intro a; simp
  | cons hd tl ih =>
    intro a
    simp only [List.foldl_cons, List.length_cons]
    constructor
    · have := (ih (a + f hd)).1
      linarith [(hf hd).1]
    · have := (ih (a + f hd)).2
      push_cast at this ⊢
      linarith [(hf hd).2]

/-- C7: for every height field, normal map, UV, height value and blended
normal of at most unit length, the ambient-occlusion factor computed by the
AO block lies within `[aoMin, 1]` inclusive. -/
theorem aoFactor_mem (H : Vec2R → ℝ) (NM : Vec2R → Vec3R) (finalUV : Vec2R)
    (hVal : ℝ) (N : Vec3R) (hN : nsq N ≤ 1) :
    aoMin ≤ aoFactor H NM finalUV hVal N ∧ aoFactor H NM finalUV hVal N ≤ 1 := by
  have hz1 : |N.z| ≤ 1 := by
    have hz2 : N.z * N.z ≤ 1 := by
      have := nsq_nonneg N
      simp only [nsq, dot3] at hN ⊢
      nlinarith [mul_self_nonneg N.x, mul_self_nonneg N.y]
    rw [abs_le]
    constructor <;> nlinarith [sq_nonneg (N.z + 1), sq_nonneg (N.z - 1)]
  have hz0 : (0 : ℝ) ≤ |N.z| := abs_nonneg _
  have hfold := foldl_add_unit_bounds (aoSample H NM finalUV hVal N)
    (fun i => aoSample_mem_unit H NM finalUV hVal N i hN) (List.range 8) 0
  simp only [List.length_range, Nat.cast_ofNat, zero_add] at hfold
  simp only [aoFactor]
  set F := (List.range 8).foldl (fun acc i => acc + aoSample H NM finalUV hVal N i) 0 with hF
  have hao : 0 ≤ F / 8 ∧ F / 8 ≤ 1 := by
    constructor
    · apply div_nonneg hfold.1 (by norm_num)
    · rw [div_le_one (by norm_num)]
      linarith [hfold.2]
  have hao' : 0 ≤ lerpR (F / 8) 1 |N.z| ∧ lerpR (F / 8) 1 |N.z| ≤ 1 := by
    unfold lerpR
    constructor <;> nlinarith [hao.1, hao.2]
  unfold lerpR aoMin
  constructor <;> nlinarith [hao'.1, hao'.2]

end Steep
namespace Steep

lemma Vec3R.zero_x : (0 : Vec3R).x = 0 := rfl

/-- Witness for C4 at a concrete flat height field and unit view. -/
theorem parallaxTrace_zero_bumpScale_witness :
    (∀ p : Vec2, 0 ≤ (fun _ : Vec2 => (1 : ℚ)/2) p ∧ (fun _ : Vec2 => (1 : ℚ)/2) p ≤ 1)
    ∧ ((⟨3/5, 0, 4/5⟩ : Vec3).x ^ 2 + (⟨3/5, 0, 4/5⟩ : Vec3).y ^ 2
        + (⟨3/5, 0, 4/5⟩ : Vec3).z ^ 2 = 1)
    ∧ (⟨3/5, 0, 4/5⟩ : Vec3).z ≠ 0
    ∧ parallaxTrace (fun _ => 1/2) ⟨1/4, 1/4⟩ ⟨3/5, 0, 4/5⟩ 0 ⟨9, 9⟩ = ⟨1/4, 1/4⟩ :=
  ⟨fun _ => by norm_num, by norm_num, by norm_num,
   parallaxTrace_zero_bumpScale _ _ _ _ (fun _ => by norm_num) (by norm_num) (by norm_num)⟩

/-- Witness for C9: one extra unit of fuel changes nothing at a concrete input. -/
theorem parallaxTrace_loop_terminates_witness :
    ((⟨3/5, 0, 4/5⟩ : Vec3).x ^ 2 + (⟨3/5, 0, 4/5⟩ : Vec3).y ^ 2
        + (⟨3/5, 0, 4/5⟩ : Vec3).z ^ 2 = 1)
    ∧ (⟨3/5, 0, 4/5⟩ : Vec3).z ≠ 0
    ∧ traceLoop (fun _ => 1/2) (traceDeltaUV ⟨3/5, 0, 4/5⟩ 1)
        (1 / numStepsOf ⟨3/5, 0, 4/5⟩) (73 + 1)
        (traceInit (fun _ => 1/2) ⟨1/4, 1/4⟩ ⟨9, 9⟩)
      = traceLoop (fun _ => 1/2) (traceDeltaUV ⟨3/5, 0, 4/5⟩ 1)
        (1 / numStepsOf ⟨3/5, 0, 4/5⟩) 73
        (traceInit (fun _ => 1/2) ⟨1/4, 1/4⟩ ⟨9, 9⟩) :=
  ⟨by norm_num, by norm_num,
   (parallaxTrace_loop_terminates (fun _ => 1/2) ⟨1/4, 1/4⟩ ⟨3/5, 0, 4/5⟩ 1 ⟨9, 9⟩
     (by norm_num) (by norm_num)).2.2 1⟩

/-- Witness for C10 at the constant-one height field. -/
theorem parallaxTrace_flat_top_witness :
    ((fun _ : Vec2 => (1 : ℚ)) ⟨0, 0⟩ = 1) ∧ |(⟨3/5, 0, 4/5⟩ : Vec3).z| ≤ 1
    ∧ (traceLoop (fun _ => 1) (traceDeltaUV ⟨3/5, 0, 4/5⟩ 2)
          (1 / numStepsOf ⟨3/5, 0, 4/5⟩) 73 (traceInit (fun _ => 1) ⟨0, 0⟩ ⟨7, 3⟩)
        = traceInit (fun _ => 1) ⟨0, 0⟩ ⟨7, 3⟩
      ∧ parallaxTrace (fun _ => 1) ⟨0, 0⟩ ⟨3/5, 0, 4/5⟩ 2 ⟨7, 3⟩ = ⟨0, 0⟩) :=
  ⟨rfl, by rw [show (⟨3/5, 0, 4/5⟩ : Vec3).z = 4/5 from rfl, abs_of_nonneg] <;> norm_num,
   parallaxTrace_flat_top (fun _ => 1) ⟨0, 0⟩ ⟨3/5, 0, 4/5⟩ 2 rfl
     (by rw [show (⟨3/5, 0, 4/5⟩ : Vec3).z = 4/5 from rfl, abs_of_nonneg] <;> norm_num) ⟨7, 3⟩⟩

/-- Witness for C8 at `z = 1/2` and the endpoints of `[0, 1]`. -/
theorem numSteps_face_on_lt_grazing_witness :
    numStepsOf ⟨0, 0, 1⟩ < numStepsOf ⟨1, 0, 1/2⟩ ∧ stepMix 1 < stepMix 0 :=
  ⟨numSteps_face_on_lt_grazing.1 (1/2)
     (by rw [abs_of_nonneg] <;> norm_num),
   numSteps_face_on_lt_grazing.2 0 1 le_rfl one_pos le_rfl⟩

/-- Witness for C3 with self-shadowing disabled. -/
theorem shadowFactor_disabled_witness :
    ((0 : ℚ) ≤ 0 ∨ (1 : ℚ) ≤ 0)
    ∧ shadowFactor (fun _ => 0) ⟨0, 0⟩ ⟨0, 0, 1⟩ 1 0 1 = 1 :=
  ⟨Or.inl le_rfl,
   shadowFactor_disabled_eq_one (fun _ => 0) ⟨0, 0⟩ ⟨0, 0, 1⟩ 1 0 1 (Or.inl le_rfl)⟩

/-- Witness for C6 at a concrete non-cancelling pair of normals. -/
theorem blend_normal_witness :
    ((⟨0, 0, 1⟩ : Vec3R) + ⟨1, 0, 0⟩ ≠ 0)
    ∧ normalize3 (mix3 ⟨0, 0, 1⟩ ⟨1, 0, 0⟩ (1/2))
      = normalize3 ((⟨0, 0, 1⟩ : Vec3R) + ⟨1, 0, 0⟩) := by
  have hne : (⟨0, 0, 1⟩ : Vec3R) + ⟨1, 0, 0⟩ ≠ 0 := by
    intro h
    have hx := congrArg Vec3R.x h
    rw [Vec3R.radd_x, Vec3R.zero_x] at hx
    norm_num at hx
  exact ⟨hne, blend_normal_eq_normalize_sum _ _ hne⟩

/-- Witness for C7 at a flat height field and the straight-up normal. -/
theorem aoFactor_mem_witness :
    nsq ⟨0, 0, 1⟩ ≤ 1
    ∧ (aoMin ≤ aoFactor (fun _ => 0) (fun _ => ⟨1/2, 1/2, 1⟩) ⟨0, 0⟩ 0 ⟨0, 0, 1⟩
        ∧ aoFactor (fun _ => 0) (fun _ => ⟨1/2, 1/2, 1⟩) ⟨0, 0⟩ 0 ⟨0, 0, 1⟩ ≤ 1) :=
  ⟨by norm_num [nsq, dot3],
   aoFactor_mem (fun _ => 0) (fun _ => ⟨1/2, 1/2, 1⟩) ⟨0, 0⟩ 0 ⟨0, 0, 1⟩
     (by norm_num [nsq, dot3])⟩

end Steep
